import Mathlib

/-!
Shallow embedding of the AI-MEET-AGENT server core: the meeting state machine
(`backend/controllers/meetingController.js`), the meeting schema methods
(`backend/models/Meeting.js`), the job-queue service (`backend/services/queueService.js`),
the WebRTC signaling router (`backend/server.js`) and the minutes pipeline
(`backend/services/geminiService.js`, `backend/controllers/meetingMinutesController.js`),
together with proofs and refutations of the specification's claims about them.

Conventions: user ids are `Nat`, times are `Int` milliseconds since the epoch,
public meeting codes are `String`.  Fallible HTTP handlers return
`Except ApiError _`; an error response leaves every document unchanged
(the controllers return before any `save`).
-/

namespace AIMeet

/-- Meeting lifecycle status (`meetingSchema.status` enum). -/
inductive MeetingStatus
  | scheduled | ongoing | ended | cancelled
deriving Repr, DecidableEq

/-- Participant role (`meetingSchema.participants.role` enum). -/
inductive PRole
  | host | cohost | participant
deriving Repr, DecidableEq

/-- Participant status values that the controllers write.  `invited` is written
by `scheduleMeeting` even though the schema enum (`['joined','left','removed']`)
does not list it; `participantStatusInSchemaEnum` below records the schema enum. -/
inductive PStatus
  | joined | left | removed | invited
deriving Repr, DecidableEq

/-- The participant status values admitted by the mongoose schema enum
(`meetingSchema.participants.status: enum ['joined','left','removed']`). -/
def participantStatusInSchemaEnum : PStatus → Bool
  | PStatus.joined => true
  | PStatus.left => true
  | PStatus.removed => true
  | PStatus.invited => false

/-- One entry of `meeting.participants` (permissions and media state omitted:
no claim mentions them and no modelled operation reads or writes them). -/
structure Participant where
  user : Nat
  joinedAt : Int
  leftAt : Option Int := none
  role : PRole := PRole.participant
  status : PStatus := PStatus.joined
deriving Repr, DecidableEq

instance : Inhabited Participant := ⟨{ user := 0, joinedAt := 0 }⟩

/-- Embedding of `meetingSchema.settings` with its schema defaults. -/
structure Settings where
  allowGuests : Bool := true
  requirePassword : Bool := false
  enableRecording : Bool := false
  enableChat : Bool := true
  enableScreenShare : Bool := true
  enableRaiseHand : Bool := true
  enableReactions : Bool := true
  maxParticipants : Nat := 50
  waitingRoom : Bool := false
  muteOnEntry : Bool := false
  videoOnEntry : Bool := false
deriving Repr, DecidableEq

/-- Embedding of `meetingSchema.statistics` (the fields the modelled operations touch). -/
structure Statistics where
  totalParticipants : Nat := 0
  peakParticipants : Nat := 0
  totalDuration : Int := 0
  chatMessages : Nat := 0
deriving Repr, DecidableEq

/-- A meeting document. -/
structure Meeting where
  host : Nat
  meetingId : String
  password : Option String := none
  scheduledFor : Int
  duration : Nat := 60
  status : MeetingStatus := MeetingStatus.scheduled
  settings : Settings := {}
  participants : List Participant := []
  statistics : Statistics := {}
deriving Repr, DecidableEq

/-- Embedding of `userSchema.statistics` (the counters the meeting controller increments). -/
structure UserStats where
  totalMeetings : Nat := 0
  meetingsHosted : Nat := 0
  meetingsAttended : Nat := 0
deriving Repr, DecidableEq

/-- The failure responses of the meeting controllers, one constructor per
distinct `(status, message)` pair. -/
inductive ApiError
  | notFound            -- 404 Meeting not found
  | meetingUnavailable  -- 400 Meeting is no longer available
  | wrongPassword       -- 401 Incorrect meeting password
  | meetingFull         -- 400 Meeting is full
  | onlyHost            -- 403 Only host can ...
  | onlyScheduled       -- 400 Can only cancel scheduled meetings
  | mustBeFuture        -- 400 Scheduled time must be in the future
  | internal            -- 500 Internal server error
deriving Repr, DecidableEq

/-- Embedding of `meeting.participants.filter(p => p.status === 'joined').length`. -/
def joinedCount (ps : List Participant) : Nat :=
  (ps.filter (fun p => decide (p.status = PStatus.joined))).length

/-- Embedding of `meetingController.joinMeeting` (part_010 lines 92-180).  `stats` is the
caller's user-statistics document; the returned pair is the saved meeting and
the caller's statistics after the conditional `$inc`. -/
def joinMeeting (now : Int) (uid : Nat) (password : Option String)
    (m : Meeting) (stats : UserStats) : Except ApiError (Meeting × UserStats) :=
  if m.status = MeetingStatus.ended ∨ m.status = MeetingStatus.cancelled then
    Except.error ApiError.meetingUnavailable
  else if m.settings.requirePassword = true ∧ m.password ≠ password then
    Except.error ApiError.wrongPassword
  else if m.settings.maxParticipants ≤ joinedCount m.participants then
    Except.error ApiError.meetingFull
  else
    match m.participants.findIdx? (fun p => decide (p.user = uid)) with
    | none =>
      let entry : Participant :=
        { user := uid, joinedAt := now, role := PRole.participant, status := PStatus.joined }
      let m1 := { m with participants := m.participants ++ [entry] }
      let m2 := if m1.status = MeetingStatus.scheduled then
        { m1 with status := MeetingStatus.ongoing } else m1
      let stats2 := { stats with
        meetingsAttended := stats.meetingsAttended + 1
        totalMeetings := stats.totalMeetings + 1 }
      Except.ok (m2, stats2)
    | some i =>
      let p := m.participants.getD i default
      let m1 := if p.status ≠ PStatus.joined then
        { m with participants :=
          m.participants.set i { p with status := PStatus.joined, joinedAt := now } }
      else m
      let m2 := if m1.status = MeetingStatus.scheduled then
        { m1 with status := MeetingStatus.ongoing } else m1
      Except.ok (m2, stats)

/-- Host promotion inside `leaveMeeting`: participant `j` becomes host, the
leaver at `i` is demoted to `participant`, and `meeting.host` becomes the new
host's user id. -/
def promoteHost (base : Meeting) (i j : Nat) : Meeting :=
  let ps := base.participants
  let ps2 := ps.set j { ps.getD j default with role := PRole.host }
  let ps3 := ps2.set i { ps2.getD i default with role := PRole.participant }
  { base with participants := ps3, host := (ps.getD j default).user }

/-- Embedding of `meetingController.leaveMeeting` (part_010 lines 183-242).  The handler
always responds 200; when the caller has no participant entry with status
`joined` the document is returned untouched. -/
def leaveMeeting (now : Int) (uid : Nat) (m : Meeting) : Meeting :=
  match m.participants.findIdx?
      (fun p => decide (p.user = uid ∧ p.status = PStatus.joined)) with
  | none => m
  | some i =>
    let leaver := m.participants.getD i default
    let ps1 := m.participants.set i
      { leaver with status := PStatus.left, leftAt := some now }
    let stats1 := { m.statistics with totalParticipants := joinedCount ps1 }
    let base := { m with participants := ps1, statistics := stats1 }
    if leaver.role = PRole.host then
      match ps1.findIdx?
          (fun p => decide (p.status = PStatus.joined ∧ p.role = PRole.cohost)) with
      | some j => promoteHost base i j
      | none =>
        match ps1.findIdx? (fun p => decide (p.status = PStatus.joined)) with
        | some j => promoteHost base i j
        | none => { base with status := MeetingStatus.ended }
    else base

/-- JavaScript `Math.round((endTime - startTime) / 60000)` on integer
millisecond inputs: `⌊ms/60000 + 1/2⌋`. -/
def roundMinutes (ms : Int) : Int := (2 * ms + 60000).fdiv 120000

/-- Embedding of `meetingController.endMeeting` (part_010 lines 335-376).  Note: the only
guard is the host check; the current status is never inspected. -/
def endMeeting (now : Int) (uid : Nat) (m : Meeting) : Except ApiError Meeting :=
  if m.host ≠ uid then Except.error ApiError.onlyHost
  else
    let stats1 := { m.statistics with totalDuration := roundMinutes (now - m.scheduledFor) }
    Except.ok { m with status := MeetingStatus.ended, statistics := stats1 }

/-- Embedding of `meetingController.cancelMeeting` (part_010 lines 449-495), without the
reminder-cancellation side effect (modelled separately on `QueueState`). -/
def cancelMeeting (uid : Nat) (m : Meeting) : Except ApiError Meeting :=
  if m.host ≠ uid then Except.error ApiError.onlyHost
  else if m.status ≠ MeetingStatus.scheduled then Except.error ApiError.onlyScheduled
  else Except.ok { m with status := MeetingStatus.cancelled }

/-- The partial `settings` object of a `PUT /settings` request body. -/
structure SettingsPatch where
  allowGuests : Option Bool := none
  requirePassword : Option Bool := none
  enableRecording : Option Bool := none
  enableChat : Option Bool := none
  enableScreenShare : Option Bool := none
  enableRaiseHand : Option Bool := none
  enableReactions : Option Bool := none
  maxParticipants : Option Nat := none
  waitingRoom : Option Bool := none
  muteOnEntry : Option Bool := none
  videoOnEntry : Option Bool := none
deriving Repr, DecidableEq

/-- The JavaScript shallow merge `{ ...meeting.settings, ...settings }`. -/
def mergeSettings (s : Settings) (p : SettingsPatch) : Settings :=
  { allowGuests := p.allowGuests.getD s.allowGuests,
    requirePassword := p.requirePassword.getD s.requirePassword,
    enableRecording := p.enableRecording.getD s.enableRecording,
    enableChat := p.enableChat.getD s.enableChat,
    enableScreenShare := p.enableScreenShare.getD s.enableScreenShare,
    enableRaiseHand := p.enableRaiseHand.getD s.enableRaiseHand,
    enableReactions := p.enableReactions.getD s.enableReactions,
    maxParticipants := p.maxParticipants.getD s.maxParticipants,
    waitingRoom := p.waitingRoom.getD s.waitingRoom,
    muteOnEntry := p.muteOnEntry.getD s.muteOnEntry,
    videoOnEntry := p.videoOnEntry.getD s.videoOnEntry }

/-- Embedding of `meetingController.updateMeetingSettings` (part_010 lines 290-332). -/
def updateMeetingSettings (uid : Nat) (patch : SettingsPatch) (m : Meeting) :
    Except ApiError Meeting :=
  if m.host ≠ uid then Except.error ApiError.onlyHost
  else Except.ok { m with settings := mergeSettings m.settings patch }

/-- Mongoose validation run by `meeting.save()`: every participant's status
must belong to the schema enum (a violating document raises a
`ValidationError`, caught by the controller as a 500). -/
def saveValidates (m : Meeting) : Bool :=
  m.participants.all (fun p => participantStatusInSchemaEnum p.status)

/-- Embedding of `meetingController.createMeeting` (part_010 lines 8-60).  `candidate` is
the single code produced by the one call to `generateMeetingId`, and
`existingIds` the `meetingId`s already stored (the schema's `unique: true`
index makes `save` reject a duplicate, which the controller reports as 500).
There is no retry loop. -/
def createMeeting (existingIds : List String) (candidate : String)
    (now : Int) (uid : Nat) : Except ApiError Meeting :=
  let hostEntry : Participant :=
    { user := uid, joinedAt := now, role := PRole.host, status := PStatus.joined }
  let meeting : Meeting :=
    { host := uid
      meetingId := candidate
      scheduledFor := now
      status := MeetingStatus.scheduled
      participants := [hostEntry] }
  if saveValidates meeting = false then Except.error ApiError.internal
  else if existingIds.contains candidate then Except.error ApiError.internal
  else Except.ok meeting

/-- Embedding of `meetingController.scheduleMeeting` (part_010 lines 379-446).  The returned
`Bool` records whether `queueService.scheduleReminders` was reached (it is
invoked only after a successful `save`). -/
def scheduleMeeting (existingIds : List String) (candidate : String)
    (now : Int) (scheduledFor : Int) (uid : Nat) :
    Except ApiError (Meeting × Bool) :=
  if scheduledFor ≤ now then Except.error ApiError.mustBeFuture
  else
    let hostEntry : Participant :=
      { user := uid, joinedAt := now, role := PRole.host, status := PStatus.invited }
    let meeting : Meeting :=
      { host := uid
        meetingId := candidate
        scheduledFor := scheduledFor
        status := MeetingStatus.scheduled
        participants := [hostEntry] }
    if saveValidates meeting = false then Except.error ApiError.internal
    else if existingIds.contains candidate then Except.error ApiError.internal
    else Except.ok (meeting, true)

/-- Embedding of `meetingSchema.methods.addParticipant` (part_003 lines 151-168): appends a
new joined entry unless the user already has a joined entry, and updates
`totalParticipants` and `peakParticipants`. -/
def addParticipant (now : Int) (uid : Nat) (role : PRole) (m : Meeting) : Meeting :=
  match m.participants.find?
      (fun p => decide (p.user = uid ∧ p.status = PStatus.joined)) with
  | some _ => m
  | none =>
    let entry : Participant :=
      { user := uid, joinedAt := now, role := role, status := PStatus.joined }
    let ps := m.participants ++ [entry]
    let total := joinedCount ps
    let stats1 := { m.statistics with
      totalParticipants := total
      peakParticipants := max m.statistics.peakParticipants total }
    { m with participants := ps, statistics := stats1 }

/-! ### Meeting-code generation (`generateMeetingId`, part_010 lines 12-21) -/

/-- The alphabet `'ABCDEFGHIJKLMNOPQRSTUVWXYZ0123456789'`. -/
def chars36 : List Char := "ABCDEFGHIJKLMNOPQRSTUVWXYZ0123456789".toList

/-- Embedding of `chars.charAt(Math.floor(Math.random() * chars.length))` for one draw. -/
def genChar (d : Fin 36) : Char := chars36.getD d.val 'A'

/-- The loop body of `generateMeetingId`: at `i = 3` and `i = 6` a hyphen is
appended before the drawn character. -/
def genLoop : Nat → List (Fin 36) → List Char
  | _, [] => []
  | i, d :: ds =>
    (if i = 3 ∨ i = 6 then ['-', genChar d] else [genChar d]) ++ genLoop (i + 1) ds

/-- Embedding of `generateMeetingId` applied to the nine random draws of its loop. -/
def generateMeetingId (draws : List (Fin 36)) : String := ⟨genLoop 0 draws⟩

/-- One character of the classes `[A-Z]` or `[0-9]`. -/
def isMeetingChar (c : Char) : Bool :=
  ('A' ≤ c && c ≤ 'Z') || ('0' ≤ c && c ≤ '9')

/-- The spec's wire format `^[A-Z0-9]{3}-[A-Z0-9]{3}-[A-Z0-9]{3}$`. -/
def meetingIdFormat (s : String) : Bool :=
  match s.data with
  | [c0, c1, c2, h1, c3, c4, c5, h2, c6, c7, c8] =>
    h1 == '-' && h2 == '-' && ([c0, c1, c2, c3, c4, c5, c6, c7, c8].all isMeetingChar)
  | _ => false

/-! ### Queue service (`queueService.js`, part_008) -/

/-- The reminder ladder `[{minutes: 60}, {30}, {15}, {5}]`. -/
def reminderIntervals : List Nat := [60, 30, 15, 5]

/-- The deterministic job id `reminder-<meetingId>-<minutes>`. -/
def reminderJobId (meetingId : String) (minutes : Nat) : String :=
  "reminder-" ++ meetingId ++ "-" ++ toString minutes

/-- The reminder-relevant state of `QueueService`: whether `initialize`
succeeded (`this.initialized`), the pending delayed jobs of the durable
reminder queue (by job id), and the pending in-process `setTimeout` timers of
the fallback path (delay paired with the reminder tag; the service stores no
handle to them). -/
structure QueueState where
  initialized : Bool
  reminderJobs : List String := []
  timers : List (Int × String) := []
deriving Repr, DecidableEq

/-- Embedding of `QueueService.scheduleReminders` (part_008 lines 341-394): for each
interval whose reminder time is still in the future, either add a durable
delayed job with id `reminder-<meetingId>-<minutes>`, or — when Redis is
unavailable — arm a bare `setTimeout`. -/
def scheduleReminders (now scheduledFor : Int) (meetingId : String)
    (q : QueueState) : QueueState :=
  reminderIntervals.foldl
    (fun q (minutes : Nat) =>
      let reminderTime := scheduledFor - ((minutes * 60 * 1000 : Nat) : Int)
      let delay := reminderTime - now
      if 0 < delay then
        if q.initialized then
          { q with reminderJobs := q.reminderJobs ++ [reminderJobId meetingId minutes] }
        else
          { q with timers := q.timers ++ [(delay, reminderJobId meetingId minutes)] }
      else q)
    q

/-- Embedding of `QueueService.cancelReminders` (part_008 lines 397-412): a no-op when the
durable queue is unavailable; otherwise each of the four deterministic job ids
is looked up and removed. -/
def cancelReminders (meetingId : String) (q : QueueState) : QueueState :=
  if q.initialized = false then q
  else
    let cancelledIds := reminderIntervals.map (reminderJobId meetingId)
    { q with reminderJobs := q.reminderJobs.filter (fun jid => !(cancelledIds.contains jid)) }

/-! ### Signaling router (`server.js` lines 167-208) -/

/-- A connected socket: its socket.io id and the `userId` attached by the
authentication middleware. -/
structure Sock where
  id : String
  userId : Option String
deriving Repr, DecidableEq, Inhabited

/-- One `emit` of a routed signaling event: the receiving socket and the
`from` field stamped onto the payload. -/
structure Emission where
  target : String
  fromUser : String
deriving Repr, DecidableEq

/-- The target predicate of the handlers:
`s.userId === data.to || s.id === data.to`. -/
def sockMatches (t : String) (s : Sock) : Bool :=
  s.userId == some t || s.id == t

/-- The shared body of the `offer`, `answer` and `ice-candidate` handlers:
with a `to` field, emit to the first socket of the registry matching
`sockMatches` (or drop silently); without one, broadcast to the room minus
the sender.  `allSockets` is `io.sockets.sockets.values()` in iteration
order and `roomMembers` the socket ids of `data.meetingId`'s room. -/
def routeSignal (allSockets : List Sock) (roomMembers : List String)
    (sender : Sock) (toField : Option String) : List Emission :=
  match toField with
  | some t =>
    match allSockets.find? (sockMatches t) with
    | some target => [{ target := target.id, fromUser := sender.userId.getD sender.id }]
    | none => []
  | none =>
    (roomMembers.filter (fun sid => !(sid == sender.id))).map
      (fun sid => { target := sid, fromUser := sender.userId.getD sender.id })

/-- Modelled from the spec's words (§4.F): the target lookup the claim
describes, which prefers a `userId` match over a `socketId` match.  Kept for
comparison with the source's single-pass disjunction in `routeSignal`. -/
def specTargetSocket (allSockets : List Sock) (t : String) : Option Sock :=
  match allSockets.find? (fun s => s.userId == some t) with
  | some s => some s
  | none => allSockets.find? (fun s => s.id == t)

/-! ### Minutes pipeline (`geminiService.js` part_007, `meetingMinutesController.js`) -/

/-- The content fields of a minutes record.  The items of the seven arrays are
kept abstract as strings: no claim inspects their inner structure. -/
structure MinutesContent where
  summary : String
  agenda : List String := []
  discussionPoints : List String := []
  decisions : List String := []
  actionItems : List String := []
  highlights : List String := []
  questionsRaised : List String := []
  followUps : List String := []
deriving Repr, DecidableEq

/-- The fallback structure returned by `parseGeminiResponse`'s catch block:
a placeholder summary and empty arrays. -/
def degradedMinutes : MinutesContent :=
  { summary := "Meeting minutes could not be fully processed. Please review the recording." }

/-- Embedding of `GeminiService.parseGeminiResponse` (part_007 lines 143-196).  `parsed` is
the outcome of `JSON.parse` on the fence-stripped response text, with a
successful parse abstracted to its normalized content.  On parse failure the
function catches the error and RETURNS the degraded structure — it never
throws. -/
def parseGeminiResponse (parsed : Option MinutesContent) : MinutesContent :=
  match parsed with
  | some content => content
  | none => degradedMinutes

/-- Embedding of `meetingMinutesSchema.status`, the status enum. -/
inductive MinutesStatus
  | processing | completed | failed
deriving Repr, DecidableEq

/-- The minutes record as the generation flow reads and writes it. -/
structure MinutesRecord where
  meetingId : String
  content : MinutesContent := { summary := "" }
  status : MinutesStatus := MinutesStatus.processing
  error : Option String := none
  emailsSent : Bool := false
deriving Repr, DecidableEq

/-- Outcome of `geminiService.generateMeetingMinutes`: either the whole call
threw (API error, missing key, empty candidate) or it returned response text
whose JSON parse is `parsed` (`none` = parse failure). -/
inductive AiOutcome
  | apiFailure (msg : String)
  | response (parsed : Option MinutesContent)
deriving Repr, DecidableEq

/-- The AI step of `meetingMinutesController.generateMinutes` (lines 91-144)
applied to the freshly upserted `status = processing` record: on a thrown AI
error the catch block marks the record failed and records the error (and the
handler responds 500); otherwise the parsed (possibly degraded) content is
persisted with `status = completed` and the email step runs.  The returned
`Bool` is `true` iff the email step was reached. -/
def generateMinutesAiStep (rec : MinutesRecord) (o : AiOutcome)
    (recipients : List String) : MinutesRecord × Bool :=
  match o with
  | AiOutcome.apiFailure msg =>
    ({ rec with status := MinutesStatus.failed, error := some msg }, false)
  | AiOutcome.response parsed =>
    let content := parseGeminiResponse parsed
    let rec1 := { rec with content := content, status := MinutesStatus.completed }
    let rec2 := if recipients.isEmpty then rec1 else { rec1 with emailsSent := true }
    (rec2, true)

/-! ### Claim-language helpers

Definitions phrased after the specification's wording, used by the theorem
statements so that the proved properties are not mere restatements of the
implementations above. -/

/-- The participants list after `leaveMeeting` marks the leaver at index `i`
as left (the claim's "sets that participant to status left with leftAt set"). -/
def leaverMarked (now : Int) (m : Meeting) (i : Nat) : List Participant :=
  m.participants.set i
    { m.participants.getD i default with status := PStatus.left, leftAt := some now }

/-- The participants that remain joined, in participant-array (join) order. -/
def remainingJoined (ps : List Participant) : List Participant :=
  ps.filter (fun p => decide (p.status = PStatus.joined))

/-- The successor the claim designates: the first joined co-host in join
order, or, failing that, the first remaining joined participant. -/
def successor (ps : List Participant) : Participant :=
  match (remainingJoined ps).find? (fun p => decide (p.role = PRole.cohost)) with
  | some c => c
  | none => (remainingJoined ps).headD default

/-- The meeting as `leaveMeeting` has it just before the host-succession
branch: leaver marked left, `totalParticipants` recounted. -/
def leaveBase (now : Int) (m : Meeting) (i : Nat) : Meeting :=
  { m with
    participants := leaverMarked now m i
    statistics := { m.statistics with totalParticipants := joinedCount (leaverMarked now m i) } }

/-- State threaded through a sequence of join/leave calls of one user against
one meeting: the meeting document plus the caller's statistics document. -/
structure SessionState where
  meeting : Meeting
  stats : UserStats
deriving Repr, DecidableEq

/-- One HTTP call of the sequences claim C1 quantifies over. -/
inductive MeetOp
  | join (now : Int) (password : Option String)
  | leave (now : Int)
deriving Repr, DecidableEq

/-- Effect of one call on the session state; a failed join (4xx response)
changes nothing because `joinMeeting` returns before any write. -/
def applyOp (uid : Nat) (s : SessionState) : MeetOp → SessionState
  | MeetOp.join now pwd =>
    match joinMeeting now uid pwd s.meeting s.stats with
    | Except.ok (m1, st1) => ⟨m1, st1⟩
    | Except.error _ => s
  | MeetOp.leave now => ⟨leaveMeeting now uid s.meeting, s.stats⟩

/-- Folding a sequence of calls over a session state. -/
def runOps (uid : Nat) (s : SessionState) (ops : List MeetOp) : SessionState :=
  ops.foldl (applyOp uid) s

/-- Whether the meeting has any participant entry for `uid` (of any status). -/
def hasEntry (uid : Nat) (m : Meeting) : Bool :=
  m.participants.any (fun p => decide (p.user = uid))

/-! ### Concrete fixtures for witnesses and counterexamples -/

/-- An ongoing meeting with a joined host 1, co-host 2 and participant 3. -/
def exMeetingOngoing : Meeting :=
  { host := 1
    meetingId := "AAA-BBB-CCC"
    scheduledFor := 0
    status := MeetingStatus.ongoing
    participants := [
      { user := 1, joinedAt := 0, role := PRole.host, status := PStatus.joined },
      { user := 2, joinedAt := 1, role := PRole.cohost, status := PStatus.joined },
      { user := 3, joinedAt := 2, role := PRole.participant, status := PStatus.joined }] }

/-- An ongoing meeting with no participants yet. -/
def exMeetingEmpty : Meeting :=
  { host := 1, meetingId := "DDD-EEE-FFF", scheduledFor := 0,
    status := MeetingStatus.ongoing }

/-- A cancelled meeting whose host 1 still has a joined entry (reachable:
`createMeeting` seeds the host joined with status `scheduled`, then
`cancelMeeting` flips the status). -/
def exMeetingCancelled : Meeting :=
  { host := 1
    meetingId := "GGG-HHH-JJJ"
    scheduledFor := 0
    status := MeetingStatus.cancelled
    participants := [{ user := 1, joinedAt := 0, role := PRole.host, status := PStatus.joined }] }

/-- Queue state after `initialize` failed (Redis unavailable). -/
def fallbackQueue : QueueState := { initialized := false }

/-- Queue state after a successful `initialize`. -/
def durableQueue : QueueState := { initialized := true }

/-- A socket registry in which the first socket's id equals another socket's
user id, separating the source's one-pass disjunction from the spec's
userId-preferred lookup. -/
def cexSockets : List Sock := [⟨"alice", some "bob"⟩, ⟨"s2", some "alice"⟩]

/-- The sender socket used in the signaling scenarios. -/
def cexSender : Sock := ⟨"s0", some "bob2"⟩

/-- A freshly upserted minutes record in status `processing`. -/
def exMinutesRecord : MinutesRecord := { meetingId := "GGG-HHH-JJJ" }

/-! ### Supporting lemmas -/

/-- Reading back the element just written by `set`. -/
theorem getD_set_self {α : Type} (l : List α) (i : Nat) (a d : α) (h : i < l.length) :
    (l.set i a).getD i d = a := by
  simp [List.getD_eq_getElem?_getD, List.getElem?_set_self (by simpa using h)]

/-- Reading an element `set` did not touch. -/
theorem getD_set_ne {α : Type} (l : List α) (i j : Nat) (a d : α) (h : i ≠ j) :
    (l.set i a).getD j d = l.getD j d := by
  simp [List.getD_eq_getElem?_getD, List.getElem?_set_ne h]

/-- In-bounds `getD` agrees with `getElem`. -/
theorem getD_eq_getElem {α : Type} (l : List α) (i : Nat) (d : α) (h : i < l.length) :
    l.getD i d = l[i] := by
  simp [List.getD_eq_getElem?_getD, List.getElem?_eq_getElem h]

/-- Unpacking a successful `findIdx?`: the index is in bounds, the element
there satisfies the predicate, and `find?` returns exactly that element. -/
theorem findIdx?_spec {α : Type} [Inhabited α] (l : List α) (p : α → Bool) (i : Nat)
    (h : l.findIdx? p = some i) :
    i < l.length ∧ p (l.getD i default) = true ∧ l.find? p = some (l.getD i default) := by
  induction l generalizing i with
  | nil => simp at h
  | cons a t ih =>
    rw [List.findIdx?_cons] at h
    by_cases hp : p a
    · rw [if_pos hp] at h
      injection h with h
      subst h
      exact ⟨Nat.succ_pos _, hp, List.find?_cons_of_pos _ hp⟩
    · rw [if_neg hp, List.findIdx?_succ] at h
      cases hidx : t.findIdx? p with
      | none => rw [hidx] at h; simp at h
      | some i' =>
        rw [hidx] at h
        simp only [Option.map_some'] at h
        injection h with h
        subst h
        obtain ⟨hlen, hpi, hfind⟩ := ih i' hidx
        refine ⟨Nat.succ_lt_succ hlen, ?_, ?_⟩
        · simpa using hpi
        · rw [List.find?_cons_of_neg _ hp]
          simpa using hfind

/-- Overwriting an entry with one carrying the same `user` leaves the user
projection of the list unchanged. -/
theorem map_user_set (l : List Participant) (i : Nat) (a : Participant)
    (h : a.user = (l.getD i default).user) :
    (l.set i a).map Participant.user = l.map Participant.user := by
  induction l generalizing i with
  | nil => rfl
  | cons x t ih =>
    cases i with
    | zero => simp_all
    | succ n =>
      simp only [List.set_cons_succ, List.map_cons]
      rw [ih n (by simpa using h)]

/-- Filtering then finding equals finding with the conjunction. -/
theorem find?_filter_and {α : Type} (l : List α) (p q : α → Bool) :
    (l.filter p).find? q = l.find? (fun a => p a && q a) := by
  induction l with
  | nil => rfl
  | cons a t ih =>
    by_cases hp : p a
    · rw [List.filter_cons_of_pos hp]
      by_cases hq : q a
      · rw [List.find?_cons_of_pos _ hq, List.find?_cons_of_pos _ (by rw [hp, hq]; rfl)]
      · rw [List.find?_cons_of_neg _ hq, List.find?_cons_of_neg _ (by simp [hp, hq]), ih]
    · rw [List.filter_cons_of_neg hp,
        List.find?_cons_of_neg _ (by rw [Bool.eq_false_iff.mpr hp]; simp), ih]

/-- Status of the meeting after `leaveMeeting`: either unchanged, or `ended`
(the last-joined-host branch). -/
theorem leaveMeeting_status (now : Int) (uid : Nat) (m : Meeting) :
    (leaveMeeting now uid m).status = m.status ∨
    (leaveMeeting now uid m).status = MeetingStatus.ended := by
  unfold leaveMeeting
  split
  · exact Or.inl rfl
  · dsimp only
    split
    · split
      · exact Or.inl rfl
      · split
        · exact Or.inl rfl
        · exact Or.inr rfl
    · exact Or.inl rfl

/-- Removal by id filters out every job whose id is among the cancelled ids. -/
theorem contains_filter_cancelled {l ids : List String} {x : String}
    (hx : ids.contains x = true) :
    (l.filter (fun a => !(ids.contains a))).contains x = false := by
  rw [Bool.eq_false_iff]
  intro hcon
  rw [List.contains_iff_exists_mem_beq] at hcon
  obtain ⟨a, ha, hbeq⟩ := hcon
  rw [List.mem_filter] at ha
  have hxa : x = a := eq_of_beq hbeq
  subst hxa
  rw [hx] at ha
  simp at ha

/-- Folding the reminder ladder never changes the `initialized` flag. -/
theorem scheduleReminders_initialized (now scheduledFor : Int) (mid : String)
    (q : QueueState) :
    (scheduleReminders now scheduledFor mid q).initialized = q.initialized := by
  unfold scheduleReminders
  generalize reminderIntervals = l
  induction l generalizing q with
  | nil => rfl
  | cons a t ih =>
    rw [List.foldl_cons, ih]
    dsimp only
    split
    · split <;> rfl
    · rfl

/-- When the leaver is not the host, `leaveMeeting` only marks and recounts. -/
theorem leaveMeeting_eq_nonhost (now : Int) (uid : Nat) (m : Meeting) (i : Nat)
    (hfind : m.participants.findIdx?
      (fun p => decide (p.user = uid ∧ p.status = PStatus.joined)) = some i)
    (hrole : ¬(m.participants.getD i default).role = PRole.host) :
    leaveMeeting now uid m = leaveBase now m i := by
  unfold leaveMeeting
  rw [hfind]
  dsimp only
  rw [if_neg hrole]
  rfl

/-- When the leaver is the host and a joined co-host exists, `leaveMeeting`
promotes the first one. -/
theorem leaveMeeting_eq_promote_cohost (now : Int) (uid : Nat) (m : Meeting) (i j : Nat)
    (hfind : m.participants.findIdx?
      (fun p => decide (p.user = uid ∧ p.status = PStatus.joined)) = some i)
    (hrole : (m.participants.getD i default).role = PRole.host)
    (hjc : (leaverMarked now m i).findIdx?
      (fun p => decide (p.status = PStatus.joined ∧ p.role = PRole.cohost)) = some j) :
    leaveMeeting now uid m = promoteHost (leaveBase now m i) i j := by
  unfold leaverMarked at hjc
  unfold leaveMeeting
  rw [hfind]
  dsimp only
  rw [if_pos hrole, hjc]
  rfl

/-- When the leaver is the host, no joined co-host exists but some joined
participant remains, `leaveMeeting` promotes the first remaining one. -/
theorem leaveMeeting_eq_promote_first (now : Int) (uid : Nat) (m : Meeting) (i j : Nat)
    (hfind : m.participants.findIdx?
      (fun p => decide (p.user = uid ∧ p.status = PStatus.joined)) = some i)
    (hrole : (m.participants.getD i default).role = PRole.host)
    (hjc : (leaverMarked now m i).findIdx?
      (fun p => decide (p.status = PStatus.joined ∧ p.role = PRole.cohost)) = none)
    (hj : (leaverMarked now m i).findIdx?
      (fun p => decide (p.status = PStatus.joined)) = some j) :
    leaveMeeting now uid m = promoteHost (leaveBase now m i) i j := by
  unfold leaverMarked at hjc hj
  unfold leaveMeeting
  rw [hfind]
  dsimp only
  rw [if_pos hrole, hjc, hj]
  rfl

/-- When the leaver is the host and nobody remains joined, `leaveMeeting` ends
the meeting. -/
theorem leaveMeeting_eq_ended (now : Int) (uid : Nat) (m : Meeting) (i : Nat)
    (hfind : m.participants.findIdx?
      (fun p => decide (p.user = uid ∧ p.status = PStatus.joined)) = some i)
    (hrole : (m.participants.getD i default).role = PRole.host)
    (hjc : (leaverMarked now m i).findIdx?
      (fun p => decide (p.status = PStatus.joined ∧ p.role = PRole.cohost)) = none)
    (hj : (leaverMarked now m i).findIdx?
      (fun p => decide (p.status = PStatus.joined)) = none) :
    leaveMeeting now uid m = { leaveBase now m i with status := MeetingStatus.ended } := by
  unfold leaverMarked at hjc hj
  unfold leaveMeeting
  rw [hfind]
  dsimp only
  rw [if_pos hrole, hjc, hj]
  rfl

/-- Field-level description of `promoteHost`. -/
theorem promoteHost_spec (base : Meeting) (i j : Nat) (hij : i ≠ j)
    (hi : i < base.participants.length) (hj : j < base.participants.length) :
    (promoteHost base i j).status = base.status ∧
    (promoteHost base i j).host = (base.participants.getD j default).user ∧
    (promoteHost base i j).participants.length = base.participants.length ∧
    (promoteHost base i j).participants.getD i default =
      { base.participants.getD i default with role := PRole.participant } ∧
    (promoteHost base i j).participants.getD j default =
      { base.participants.getD j default with role := PRole.host } := by
  refine ⟨rfl, rfl, by simp [promoteHost], ?_, ?_⟩
  · unfold promoteHost
    dsimp only
    rw [getD_set_self _ _ _ _ (by simpa using hi),
      getD_set_ne _ _ _ _ _ (Ne.symm hij)]
  · unfold promoteHost
    dsimp only
    rw [getD_set_ne _ _ _ _ _ hij, getD_set_self _ _ _ _ (by simpa using hj)]

/-- Promotion only rewrites roles, so the user projection is unchanged. -/
theorem promoteHost_users (base : Meeting) (i j : Nat) :
    (promoteHost base i j).participants.map Participant.user =
      base.participants.map Participant.user := by
  unfold promoteHost
  dsimp only
  refine (map_user_set _ i _ ?_).trans (map_user_set _ j _ ?_)
  · rfl
  · rfl

/-- Leaving rewrites statuses and roles but never the user ids. -/
theorem leaveMeeting_users (now : Int) (uid : Nat) (m : Meeting) :
    (leaveMeeting now uid m).participants.map Participant.user =
      m.participants.map Participant.user := by
  cases hfind : m.participants.findIdx?
      (fun p => decide (p.user = uid ∧ p.status = PStatus.joined)) with
  | none =>
    have hid : leaveMeeting now uid m = m := by
      unfold leaveMeeting
      rw [hfind]
    rw [hid]
  | some i =>
    have hps1 : (leaverMarked now m i).map Participant.user =
        m.participants.map Participant.user := map_user_set _ _ _ rfl
    by_cases hrole : (m.participants.getD i default).role = PRole.host
    · cases hjc : (leaverMarked now m i).findIdx?
          (fun p => decide (p.status = PStatus.joined ∧ p.role = PRole.cohost)) with
      | some j =>
        rw [leaveMeeting_eq_promote_cohost now uid m i j hfind hrole hjc,
          promoteHost_users]
        exact hps1
      | none =>
        cases hj : (leaverMarked now m i).findIdx?
            (fun p => decide (p.status = PStatus.joined)) with
        | some j =>
          rw [leaveMeeting_eq_promote_first now uid m i j hfind hrole hjc hj,
            promoteHost_users]
          exact hps1
        | none =>
          rw [leaveMeeting_eq_ended now uid m i hfind hrole hjc hj]
          exact hps1
    · rw [leaveMeeting_eq_nonhost now uid m i hfind hrole]
      exact hps1

/-- Leaving preserves the number of participant entries. -/
theorem leaveMeeting_length (now : Int) (uid : Nat) (m : Meeting) :
    (leaveMeeting now uid m).participants.length = m.participants.length := by
  have h := congrArg List.length (leaveMeeting_users now uid m)
  simpa using h

/-- Projecting `getD` through `map user`. -/
theorem getD_map_user (l : List Participant) (i : Nat) :
    (l.map Participant.user).getD i (default : Participant).user =
      (l.getD i default).user := by
  induction l generalizing i with
  | nil => rfl
  | cons x t ih =>
    cases i with
    | zero => rfl
    | succ n => simp only [List.map_cons, List.getD_cons_succ]; exact ih n

/-- The user stored at any index is unchanged by `leaveMeeting`. -/
theorem leaveMeeting_user_at (now : Int) (uid : Nat) (m : Meeting) (k : Nat) :
    ((leaveMeeting now uid m).participants.getD k default).user =
      (m.participants.getD k default).user := by
  have h1 := getD_map_user (leaveMeeting now uid m).participants k
  have h2 := getD_map_user m.participants k
  rw [leaveMeeting_users now uid m] at h1
  exact h1.symm.trans h2

/-- The found leaver ends with status `left` and `leftAt = now`, whatever the
succession branch taken. -/
theorem leaveMeeting_marks_left (now : Int) (uid : Nat) (m : Meeting) (i : Nat)
    (hfind : m.participants.findIdx?
      (fun p => decide (p.user = uid ∧ p.status = PStatus.joined)) = some i) :
    ((leaveMeeting now uid m).participants.getD i default).status = PStatus.left ∧
    ((leaveMeeting now uid m).participants.getD i default).leftAt = some now := by
  obtain ⟨hlen, hpi, -⟩ := findIdx?_spec _ _ _ hfind
  have hmarked : (leaverMarked now m i).getD i default =
      { m.participants.getD i default with status := PStatus.left, leftAt := some now } :=
    getD_set_self _ _ _ _ hlen
  by_cases hrole : (m.participants.getD i default).role = PRole.host
  · cases hjc : (leaverMarked now m i).findIdx?
        (fun p => decide (p.status = PStatus.joined ∧ p.role = PRole.cohost)) with
    | some j =>
      obtain ⟨hjlen, hpj, -⟩ := findIdx?_spec _ _ _ hjc
      have hij : i ≠ j := by
        intro he
        rw [← he, hmarked] at hpj
        simp at hpj
      rw [leaveMeeting_eq_promote_cohost now uid m i j hfind hrole hjc]
      have hspec := promoteHost_spec (leaveBase now m i) i j hij
        (by simpa [leaveBase, leaverMarked] using hlen)
        (by simpa [leaveBase] using hjlen)
      constructor
      · rw [hspec.2.2.2.1]
        show ((leaverMarked now m i).getD i default).status = PStatus.left
        rw [hmarked]
      · rw [hspec.2.2.2.1]
        show ((leaverMarked now m i).getD i default).leftAt = some now
        rw [hmarked]
    | none =>
      cases hj : (leaverMarked now m i).findIdx?
          (fun p => decide (p.status = PStatus.joined)) with
      | some j =>
        obtain ⟨hjlen, hpj, -⟩ := findIdx?_spec _ _ _ hj
        have hij : i ≠ j := by
          intro he
          rw [← he, hmarked] at hpj
          simp at hpj
        rw [leaveMeeting_eq_promote_first now uid m i j hfind hrole hjc hj]
        have hspec := promoteHost_spec (leaveBase now m i) i j hij
          (by simpa [leaveBase, leaverMarked] using hlen)
          (by simpa [leaveBase] using hjlen)
        constructor
        · rw [hspec.2.2.2.1]
          show ((leaverMarked now m i).getD i default).status = PStatus.left
          rw [hmarked]
        · rw [hspec.2.2.2.1]
          show ((leaverMarked now m i).getD i default).leftAt = some now
          rw [hmarked]
      | none =>
        rw [leaveMeeting_eq_ended now uid m i hfind hrole hjc hj]
        constructor
        · show ((leaverMarked now m i).getD i default).status = PStatus.left
          rw [hmarked]
        · show ((leaverMarked now m i).getD i default).leftAt = some now
          rw [hmarked]
  · rw [leaveMeeting_eq_nonhost now uid m i hfind hrole]
    constructor
    · show ((leaverMarked now m i).getD i default).status = PStatus.left
      rw [hmarked]
    · show ((leaverMarked now m i).getD i default).leftAt = some now
      rw [hmarked]

/-- The claim's successor when a joined co-host exists. -/
theorem successor_of_cohost (ps : List Participant) (j : Nat)
    (hjc : ps.findIdx?
      (fun p => decide (p.status = PStatus.joined ∧ p.role = PRole.cohost)) = some j) :
    successor ps = ps.getD j default := by
  obtain ⟨hlen, hp, hfind⟩ := findIdx?_spec _ _ _ hjc
  unfold successor
  have hconv : (remainingJoined ps).find? (fun p => decide (p.role = PRole.cohost)) =
      some (ps.getD j default) := by
    rw [remainingJoined, find?_filter_and]
    have hpred : (fun a : Participant =>
        decide (a.status = PStatus.joined) && decide (a.role = PRole.cohost)) =
        (fun p : Participant => decide (p.status = PStatus.joined ∧ p.role = PRole.cohost)) := by
      funext a
      rw [Bool.decide_and]
    rw [hpred]
    exact hfind
  rw [hconv]

/-- The claim's successor when no joined co-host exists but a joined
participant remains. -/
theorem successor_of_first (ps : List Participant) (j : Nat)
    (hjc : ps.findIdx?
      (fun p => decide (p.status = PStatus.joined ∧ p.role = PRole.cohost)) = none)
    (hj : ps.findIdx? (fun p => decide (p.status = PStatus.joined)) = some j) :
    successor ps = ps.getD j default := by
  obtain ⟨hlen, hp, hfind⟩ := findIdx?_spec _ _ _ hj
  unfold successor
  have hnone : (remainingJoined ps).find? (fun p => decide (p.role = PRole.cohost)) = none := by
    rw [remainingJoined, find?_filter_and, List.find?_eq_none]
    intro x hx
    have hfalse := List.findIdx?_eq_none_iff.mp hjc x hx
    intro hcontra
    rw [← Bool.decide_and, hfalse] at hcontra
    simp at hcontra
  rw [hnone]
  dsimp only
  rw [List.headD_eq_head?_getD, remainingJoined, List.filter_head?, hfind]
  rfl

/-- Emptiness of the remaining-joined list matches the failed index search. -/
theorem remainingJoined_eq_nil_iff (ps : List Participant) :
    remainingJoined ps = [] ↔
      ps.findIdx? (fun p => decide (p.status = PStatus.joined)) = none := by
  rw [remainingJoined, List.filter_eq_nil_iff, List.findIdx?_eq_none_iff]
  constructor
  · intro h x hx
    have hx2 := h x hx
    simpa using hx2
  · intro h x hx
    have hx2 := h x hx
    simp [hx2]

/-! ### Claim C2 — host succession on leave -/

/-- C2: when the caller's joined participant entry (found at index `i`) has
role `host`, `leaveMeeting` marks it left with `leftAt = now`; if some
participant remains joined it promotes the claim's successor — the first
joined co-host in join order, else the first remaining joined participant —
to role `host` at some other index, demotes the old host to `participant`,
sets `meeting.host` to the successor's user id and keeps the status; if no
participant remains joined the meeting's status becomes `ended`. -/
theorem leave_host_succession (now : Int) (uid : Nat) (m : Meeting) (i : Nat)
    (hfind : m.participants.findIdx?
      (fun p => decide (p.user = uid ∧ p.status = PStatus.joined)) = some i)
    (hrole : (m.participants.getD i default).role = PRole.host) :
    (((leaveMeeting now uid m).participants.getD i default).status = PStatus.left ∧
      ((leaveMeeting now uid m).participants.getD i default).leftAt = some now) ∧
    (remainingJoined (leaverMarked now m i) ≠ [] →
      (leaveMeeting now uid m).host = (successor (leaverMarked now m i)).user ∧
      (leaveMeeting now uid m).status = m.status ∧
      ((leaveMeeting now uid m).participants.getD i default).role = PRole.participant ∧
      ∃ j, j < (leaveMeeting now uid m).participants.length ∧ j ≠ i ∧
        ((leaveMeeting now uid m).participants.getD j default).user =
          (successor (leaverMarked now m i)).user ∧
        ((leaveMeeting now uid m).participants.getD j default).role = PRole.host ∧
        ((leaveMeeting now uid m).participants.getD j default).status = PStatus.joined) ∧
    (remainingJoined (leaverMarked now m i) = [] →
      (leaveMeeting now uid m).status = MeetingStatus.ended) := by
  obtain ⟨hlen, hpi, -⟩ := findIdx?_spec _ _ _ hfind
  have hmarked : (leaverMarked now m i).getD i default =
      { m.participants.getD i default with status := PStatus.left, leftAt := some now } :=
    getD_set_self _ _ _ _ hlen
  refine ⟨leaveMeeting_marks_left now uid m i hfind, ?_, ?_⟩
  · intro hne
    have hjoin : (leaverMarked now m i).findIdx?
        (fun p => decide (p.status = PStatus.joined)) ≠ none := by
      intro h0
      exact hne ((remainingJoined_eq_nil_iff _).mpr h0)
    cases hjc : (leaverMarked now m i).findIdx?
        (fun p => decide (p.status = PStatus.joined ∧ p.role = PRole.cohost)) with
    | some j =>
      obtain ⟨hjlen, hpj, -⟩ := findIdx?_spec _ _ _ hjc
      have hij : i ≠ j := by
        intro he
        rw [← he, hmarked] at hpj
        simp at hpj
      have hsucc : successor (leaverMarked now m i) = (leaverMarked now m i).getD j default :=
        successor_of_cohost _ _ hjc
      rw [leaveMeeting_eq_promote_cohost now uid m i j hfind hrole hjc]
      obtain ⟨hst, hhost, hlen2, hgdi, hgdj⟩ := promoteHost_spec (leaveBase now m i) i j hij
        (by simpa [leaveBase, leaverMarked] using hlen)
        (by simpa [leaveBase] using hjlen)
      refine ⟨?_, hst, ?_, j, ?_, Ne.symm hij, ?_, ?_, ?_⟩
      · rw [hhost, hsucc]
        rfl
      · rw [hgdi]
      · rw [hlen2]
        show j < (leaverMarked now m i).length
        exact hjlen
      · rw [hgdj, hsucc]
        rfl
      · rw [hgdj]
      · rw [hgdj]
        show ((leaverMarked now m i).getD j default).status = PStatus.joined
        exact (of_decide_eq_true hpj).1
    | none =>
      cases hj : (leaverMarked now m i).findIdx?
          (fun p => decide (p.status = PStatus.joined)) with
      | none => exact absurd hj hjoin
      | some j =>
        obtain ⟨hjlen, hpj, -⟩ := findIdx?_spec _ _ _ hj
        have hij : i ≠ j := by
          intro he
          rw [← he, hmarked] at hpj
          simp at hpj
        have hsucc : successor (leaverMarked now m i) =
            (leaverMarked now m i).getD j default := successor_of_first _ _ hjc hj
        rw [leaveMeeting_eq_promote_first now uid m i j hfind hrole hjc hj]
        obtain ⟨hst, hhost, hlen2, hgdi, hgdj⟩ := promoteHost_spec (leaveBase now m i) i j hij
          (by simpa [leaveBase, leaverMarked] using hlen)
          (by simpa [leaveBase] using hjlen)
        refine ⟨?_, hst, ?_, j, ?_, Ne.symm hij, ?_, ?_, ?_⟩
        · rw [hhost, hsucc]
          rfl
        · rw [hgdi]
        · rw [hlen2]
          show j < (leaverMarked now m i).length
          exact hjlen
        · rw [hgdj, hsucc]
          rfl
        · rw [hgdj]
        · rw [hgdj]
          show ((leaverMarked now m i).getD j default).status = PStatus.joined
          exact of_decide_eq_true hpj
  · intro hnil
    have hj0 : (leaverMarked now m i).findIdx?
        (fun p => decide (p.status = PStatus.joined)) = none :=
      (remainingJoined_eq_nil_iff _).mp hnil
    have hjc0 : (leaverMarked now m i).findIdx?
        (fun p => decide (p.status = PStatus.joined ∧ p.role = PRole.cohost)) = none := by
      rw [List.findIdx?_eq_none_iff] at hj0 ⊢
      intro x hx
      have hxj := hj0 x hx
      rw [Bool.decide_and, hxj]
      rfl
    rw [leaveMeeting_eq_ended now uid m i hfind hrole hjc0 hj0]

/-- C2 witness: host 1 leaves the concrete ongoing meeting; co-host 2 is
promoted and the meeting stays ongoing. -/
theorem leave_host_succession_witness :
    (leaveMeeting 10 1 exMeetingOngoing).host =
      (successor (leaverMarked 10 exMeetingOngoing 0)).user ∧
    (leaveMeeting 10 1 exMeetingOngoing).status = exMeetingOngoing.status ∧
    ((leaveMeeting 10 1 exMeetingOngoing).participants.getD 0 default).status =
      PStatus.left := by
  have h := leave_host_succession 10 1 exMeetingOngoing 0 (by decide) (by decide)
  have h2 := h.2.1 (by decide)
  exact ⟨h2.1, h2.2.1, h.1.1⟩

/-- An in-bounds `getD` result is a member of the list. -/
theorem getD_mem {α : Type} (l : List α) (i : Nat) (d : α) (h : i < l.length) :
    l.getD i d ∈ l := by
  rw [getD_eq_getElem _ _ _ h]
  exact List.getElem_mem h

/-- Presence of an entry, read off the index search. -/
theorem hasEntry_eq_isSome (uid : Nat) (m : Meeting) :
    hasEntry uid m =
      (m.participants.findIdx? (fun p => decide (p.user = uid))).isSome :=
  List.findIdx?_isSome.symm

/-- The stats document is untouched by `leave`, and presence of the caller's
entry is preserved (users are never removed). -/
theorem applyOp_leave_pres (uid : Nat) (now : Int) (s : SessionState) :
    (applyOp uid s (MeetOp.leave now)).stats = s.stats ∧
    hasEntry uid (applyOp uid s (MeetOp.leave now)).meeting = hasEntry uid s.meeting := by
  refine ⟨rfl, ?_⟩
  show hasEntry uid (leaveMeeting now uid s.meeting) = hasEntry uid s.meeting
  have husers := leaveMeeting_users now uid s.meeting
  have haux : ∀ ps : List Participant,
      ps.any (fun p => decide (p.user = uid)) =
        (ps.map Participant.user).any (fun u => decide (u = uid)) := by
    intro ps
    induction ps with
    | nil => rfl
    | cons a t ih => simp only [List.any_cons, List.map_cons, ih]
  unfold hasEntry
  rw [haux (leaveMeeting now uid s.meeting).participants,
    haux s.meeting.participants, husers]

/-- A list whose `i`-th entry was overwritten with a participant of user
`uid` has an entry for `uid`. -/
theorem hasEntry_set_user (uid : Nat) (ps : List Participant) (i : Nat)
    (q : Participant) (hlen : i < ps.length) (hq : q.user = uid) :
    (ps.set i q).any (fun p => decide (p.user = uid)) = true := by
  apply List.any_eq_true.mpr
  refine ⟨(ps.set i q).getD i default, getD_mem _ i default (by simpa using hlen), ?_⟩
  rw [getD_set_self _ _ _ _ hlen]
  simp [hq]

/-- The three possible outcomes of one `join` call: a 4xx leaves the state
unchanged; a first-ever join appends the entry and bumps both counters; a
join with an existing entry keeps the stats document untouched. -/
theorem applyOp_join_cases (uid : Nat) (now : Int) (pwd : Option String)
    (s : SessionState) :
    applyOp uid s (MeetOp.join now pwd) = s ∨
    (hasEntry uid s.meeting = false ∧
      hasEntry uid (applyOp uid s (MeetOp.join now pwd)).meeting = true ∧
      (applyOp uid s (MeetOp.join now pwd)).stats.meetingsAttended =
        s.stats.meetingsAttended + 1 ∧
      (applyOp uid s (MeetOp.join now pwd)).stats.totalMeetings =
        s.stats.totalMeetings + 1) ∨
    (hasEntry uid s.meeting = true ∧
      hasEntry uid (applyOp uid s (MeetOp.join now pwd)).meeting = true ∧
      (applyOp uid s (MeetOp.join now pwd)).stats = s.stats) := by
  cases hj : joinMeeting now uid pwd s.meeting s.stats with
  | error e =>
    left
    simp only [applyOp]
    rw [hj]
  | ok pr =>
    obtain ⟨m1, st1⟩ := pr
    have happ : applyOp uid s (MeetOp.join now pwd) = ⟨m1, st1⟩ := by
      simp only [applyOp]
      rw [hj]
    rw [happ]
    unfold joinMeeting at hj
    split at hj
    · exact absurd hj (by simp)
    · split at hj
      · exact absurd hj (by simp)
      · split at hj
        · exact absurd hj (by simp)
        · cases hfind : s.meeting.participants.findIdx?
              (fun p => decide (p.user = uid)) with
          | none =>
            rw [hfind] at hj
            dsimp only at hj
            right; left
            have hhe : hasEntry uid s.meeting = false := by
              rw [hasEntry_eq_isSome, hfind]
              rfl
            split at hj <;> cases hj <;>
              exact ⟨hhe, by simp [hasEntry], rfl, rfl⟩
          | some i =>
            rw [hfind] at hj
            dsimp only at hj
            right; right
            have hhe : hasEntry uid s.meeting = true := by
              rw [hasEntry_eq_isSome, hfind]
              rfl
            obtain ⟨hlen, hpi, -⟩ := findIdx?_spec _ _ _ hfind
            have hiuser : (s.meeting.participants.getD i default).user = uid :=
              of_decide_eq_true hpi
            split at hj <;> split at hj <;> cases hj <;>
              first
                | exact ⟨hhe, hasEntry_set_user uid _ i _ hlen hiuser, rfl⟩
                | exact ⟨hhe, hhe, rfl⟩

/-- One step preserves the exactly-once counter invariant. -/
theorem statInv_step (uid : Nat) (a0 t0 : Nat) (s : SessionState) (op : MeetOp)
    (h : (hasEntry uid s.meeting = false ∧ s.stats.meetingsAttended = a0 ∧
            s.stats.totalMeetings = t0) ∨
         (hasEntry uid s.meeting = true ∧ s.stats.meetingsAttended = a0 + 1 ∧
            s.stats.totalMeetings = t0 + 1)) :
    (hasEntry uid (applyOp uid s op).meeting = false ∧
       (applyOp uid s op).stats.meetingsAttended = a0 ∧
       (applyOp uid s op).stats.totalMeetings = t0) ∨
    (hasEntry uid (applyOp uid s op).meeting = true ∧
       (applyOp uid s op).stats.meetingsAttended = a0 + 1 ∧
       (applyOp uid s op).stats.totalMeetings = t0 + 1) := by
  cases op with
  | leave now =>
    obtain ⟨hst, hhe⟩ := applyOp_leave_pres uid now s
    rcases h with ⟨h1, h2, h3⟩ | ⟨h1, h2, h3⟩
    · left
      exact ⟨by rw [hhe, h1], by rw [hst]; exact h2, by rw [hst]; exact h3⟩
    · right
      exact ⟨by rw [hhe, h1], by rw [hst]; exact h2, by rw [hst]; exact h3⟩
  | join now pwd =>
    rcases applyOp_join_cases uid now pwd s with heq | ⟨h1, h2, h3, h4⟩ | ⟨h1, h2, h3⟩
    · rw [heq]; exact h
    · rcases h with ⟨g1, g2, g3⟩ | ⟨g1, g2, g3⟩
      · right
        exact ⟨h2, by rw [h3, g2], by rw [h4, g3]⟩
      · rw [g1] at h1
        exact absurd h1 (by simp)
    · rcases h with ⟨g1, g2, g3⟩ | ⟨g1, g2, g3⟩
      · rw [g1] at h1
        exact absurd h1 (by simp)
      · right
        exact ⟨h2, by rw [h3]; exact g2, by rw [h3]; exact g3⟩

/-- The invariant carried through a whole call sequence. -/
theorem statInv_run (uid : Nat) (a0 t0 : Nat) (ops : List MeetOp) (s : SessionState)
    (h : (hasEntry uid s.meeting = false ∧ s.stats.meetingsAttended = a0 ∧
            s.stats.totalMeetings = t0) ∨
         (hasEntry uid s.meeting = true ∧ s.stats.meetingsAttended = a0 + 1 ∧
            s.stats.totalMeetings = t0 + 1)) :
    (hasEntry uid (runOps uid s ops).meeting = false ∧
       (runOps uid s ops).stats.meetingsAttended = a0 ∧
       (runOps uid s ops).stats.totalMeetings = t0) ∨
    (hasEntry uid (runOps uid s ops).meeting = true ∧
       (runOps uid s ops).stats.meetingsAttended = a0 + 1 ∧
       (runOps uid s ops).stats.totalMeetings = t0 + 1) := by
  induction ops generalizing s with
  | nil => exact h
  | cons op t ih => exact ih (applyOp uid s op) (statInv_step uid a0 t0 s op h)

/-! ### Claim C1 — idempotent join, exactly-once statistics -/

/-- C1: a join by a user whose entry is already `joined` leaves the
participants array and the stats document unchanged; a join by a user with a
non-joined entry flips it to `joined` with `joinedAt = now` and no counter
increment; and across any sequence of join/leave calls of one user against
one meeting starting with no entry, `meetingsAttended` and `totalMeetings`
are each incremented exactly once (once the entry exists, and never again). -/
theorem join_idempotent_and_stats_once (uid : Nat) :
    (∀ (now : Int) (pwd : Option String) (m : Meeting) (stats : UserStats) (i : Nat),
      m.participants.findIdx? (fun p => decide (p.user = uid)) = some i →
      (m.participants.getD i default).status = PStatus.joined →
      ∀ m1 st1, joinMeeting now uid pwd m stats = Except.ok (m1, st1) →
        m1.participants = m.participants ∧ st1 = stats) ∧
    (∀ (now : Int) (pwd : Option String) (m : Meeting) (stats : UserStats) (i : Nat),
      m.participants.findIdx? (fun p => decide (p.user = uid)) = some i →
      ¬(m.participants.getD i default).status = PStatus.joined →
      ∀ m1 st1, joinMeeting now uid pwd m stats = Except.ok (m1, st1) →
        (m1.participants.getD i default).status = PStatus.joined ∧
        (m1.participants.getD i default).joinedAt = now ∧ st1 = stats) ∧
    (∀ (s0 : SessionState) (ops : List MeetOp),
      hasEntry uid s0.meeting = false →
      ((runOps uid s0 ops).stats.meetingsAttended = s0.stats.meetingsAttended + 1 ∧
        (runOps uid s0 ops).stats.totalMeetings = s0.stats.totalMeetings + 1 ∧
        hasEntry uid (runOps uid s0 ops).meeting = true) ∨
      ((runOps uid s0 ops).stats.meetingsAttended = s0.stats.meetingsAttended ∧
        (runOps uid s0 ops).stats.totalMeetings = s0.stats.totalMeetings ∧
        hasEntry uid (runOps uid s0 ops).meeting = false)) := by
  refine ⟨?_, ?_, ?_⟩
  · intro now pwd m stats i hfind hstatus m1 st1 h
    unfold joinMeeting at h
    split at h
    · exact absurd h (by simp)
    · split at h
      · exact absurd h (by simp)
      · split at h
        · exact absurd h (by simp)
        · rw [hfind] at h
          dsimp only at h
          rw [if_neg (not_not_intro hstatus)] at h
          split at h <;> (cases h; exact ⟨rfl, rfl⟩)
  · intro now pwd m stats i hfind hstatus m1 st1 h
    obtain ⟨hlen, -, -⟩ := findIdx?_spec _ _ _ hfind
    unfold joinMeeting at h
    split at h
    · exact absurd h (by simp)
    · split at h
      · exact absurd h (by simp)
      · split at h
        · exact absurd h (by simp)
        · rw [hfind] at h
          dsimp only at h
          rw [if_pos hstatus] at h
          split at h <;> cases h <;>
            exact ⟨by rw [getD_set_self _ _ _ _ hlen],
              by rw [getD_set_self _ _ _ _ hlen], rfl⟩
  · intro s0 ops h0
    rcases statInv_run uid s0.stats.meetingsAttended s0.stats.totalMeetings ops s0
        (Or.inl ⟨h0, rfl, rfl⟩) with ⟨h1, h2, h3⟩ | ⟨h1, h2, h3⟩
    · right; exact ⟨h2, h3, h1⟩
    · left; exact ⟨h2, h3, h1⟩

/-- C1 witness: join, re-join, leave, re-join as user 2 on the empty ongoing
meeting increments `meetingsAttended` exactly once. -/
theorem join_idempotent_and_stats_once_witness :
    (runOps 2 ⟨exMeetingEmpty, {}⟩
      [MeetOp.join 5 none, MeetOp.join 6 none, MeetOp.leave 7,
        MeetOp.join 8 none]).stats.meetingsAttended =
      ({} : UserStats).meetingsAttended + 1 := by
  rcases (join_idempotent_and_stats_once 2).2.2 ⟨exMeetingEmpty, {}⟩
      [MeetOp.join 5 none, MeetOp.join 6 none, MeetOp.leave 7, MeetOp.join 8 none]
      (by decide) with h | h
  · exact h.1
  · exact absurd h.2.2 (by decide)

/-! ### Claim C10 — leave as a successful no-op for non-joined callers -/

/-- C10: a caller with no participant entry of status `joined` (never joined,
already left, or removed) gets a 200 response and a completely unchanged
document — no participant mutation, no host succession, no statistics update,
no status transition; consequently, under the data model's at-most-one entry
per user invariant, `leaveMeeting` is idempotent. -/
theorem leave_noop_and_idempotent :
    (∀ (now : Int) (uid : Nat) (m : Meeting),
      (∀ p ∈ m.participants, ¬(p.user = uid ∧ p.status = PStatus.joined)) →
      leaveMeeting now uid m = m) ∧
    (∀ (now now2 : Int) (uid : Nat) (m : Meeting),
      (∀ j, j < m.participants.length → ∀ k, k < m.participants.length →
        (m.participants.getD j default).user = uid →
        (m.participants.getD k default).user = uid → j = k) →
      leaveMeeting now2 uid (leaveMeeting now uid m) = leaveMeeting now uid m) := by
  have noop : ∀ (now : Int) (uid : Nat) (m : Meeting),
      (∀ p ∈ m.participants, ¬(p.user = uid ∧ p.status = PStatus.joined)) →
      leaveMeeting now uid m = m := by
    intro now uid m h
    have hnone : m.participants.findIdx?
        (fun p => decide (p.user = uid ∧ p.status = PStatus.joined)) = none := by
      rw [List.findIdx?_eq_none_iff]
      intro x hx
      exact decide_eq_false (h x hx)
    unfold leaveMeeting
    rw [hnone]
  refine ⟨noop, ?_⟩
  intro now now2 uid m hUnique
  cases hfind : m.participants.findIdx?
      (fun p => decide (p.user = uid ∧ p.status = PStatus.joined)) with
  | none =>
    have hm : ∀ p ∈ m.participants, ¬(p.user = uid ∧ p.status = PStatus.joined) := by
      intro p hp
      exact of_decide_eq_false (List.findIdx?_eq_none_iff.mp hfind p hp)
    rw [noop now uid m hm]
    exact noop now2 uid m hm
  | some i =>
    obtain ⟨hlen, hpi, -⟩ := findIdx?_spec _ _ _ hfind
    have hiuser : (m.participants.getD i default).user = uid := (of_decide_eq_true hpi).1
    apply noop
    intro p hp hcontra
    obtain ⟨hpu, hps⟩ := hcontra
    rw [List.mem_iff_getElem] at hp
    obtain ⟨k, hk, hpk⟩ := hp
    have hgd : (leaveMeeting now uid m).participants.getD k default = p := by
      rw [getD_eq_getElem _ _ _ hk]
      exact hpk
    by_cases hki : k = i
    · subst hki
      have hstat := (leaveMeeting_marks_left now uid m k hfind).1
      rw [hgd, hps] at hstat
      exact PStatus.noConfusion hstat
    · have hku : (m.participants.getD k default).user = uid := by
        have h1 := leaveMeeting_user_at now uid m k
        rw [hgd] at h1
        rw [← h1]
        exact hpu
      have hklen : k < m.participants.length := by
        rw [← leaveMeeting_length now uid m]
        exact hk
      exact hki (hUnique k hklen i hlen hku hiuser)

/-- C10 witness: user 5 (no entry) leaves without any change, and leaving
twice as user 1 equals leaving once. -/
theorem leave_noop_and_idempotent_witness :
    leaveMeeting 7 5 exMeetingOngoing = exMeetingOngoing ∧
    leaveMeeting 8 1 (leaveMeeting 7 1 exMeetingOngoing) =
      leaveMeeting 7 1 exMeetingOngoing := by
  constructor
  · exact leave_noop_and_idempotent.1 7 5 exMeetingOngoing (by decide)
  · exact leave_noop_and_idempotent.2 7 8 1 exMeetingOngoing (by decide)

/-! ### Claim C3 — terminal states -/

/-- C3 counterexample: `endMeeting` never inspects the current status, so a
`cancelled` meeting is transitioned to `ended` by its host, contradicting the
claim that no operation leaves a terminal state. -/
theorem endMeeting_cancelled_counterexample :
    exMeetingCancelled.status = MeetingStatus.cancelled ∧
    (endMeeting 60000 1 exMeetingCancelled).toOption.map Meeting.status =
      some MeetingStatus.ended := by
  exact ⟨rfl, rfl⟩

/-- C3 amended: `ended` is absorbing under all five operations
(`joinMeeting` fails Gone, `cancelMeeting` fails, `leaveMeeting` and
`updateMeetingSettings` preserve it, `endMeeting` rewrites it to itself), and
`cancelled` is preserved by `joinMeeting`, `cancelMeeting` and
`updateMeetingSettings`; but `endMeeting` moves a cancelled meeting to
`ended`, and `leaveMeeting` can only either preserve `cancelled` or move it
to `ended` (joined host leaving with no successor). -/
theorem terminal_status_amended (now : Int) (uid : Nat) (pwd : Option String)
    (m : Meeting) (stats : UserStats) (patch : SettingsPatch) :
    (m.status = MeetingStatus.ended →
      joinMeeting now uid pwd m stats = Except.error ApiError.meetingUnavailable ∧
      (leaveMeeting now uid m).status = MeetingStatus.ended ∧
      (∀ r, endMeeting now uid m = Except.ok r → r.status = MeetingStatus.ended) ∧
      (∀ r, cancelMeeting uid m ≠ Except.ok r) ∧
      (∀ r, updateMeetingSettings uid patch m = Except.ok r →
        r.status = MeetingStatus.ended)) ∧
    (m.status = MeetingStatus.cancelled →
      joinMeeting now uid pwd m stats = Except.error ApiError.meetingUnavailable ∧
      (∀ r, cancelMeeting uid m ≠ Except.ok r) ∧
      (∀ r, updateMeetingSettings uid patch m = Except.ok r →
        r.status = MeetingStatus.cancelled) ∧
      ((leaveMeeting now uid m).status = MeetingStatus.cancelled ∨
        (leaveMeeting now uid m).status = MeetingStatus.ended) ∧
      (∀ r, endMeeting now uid m = Except.ok r → r.status = MeetingStatus.ended)) := by
  constructor
  · intro h
    refine ⟨?_, ?_, ?_, ?_, ?_⟩
    · unfold joinMeeting
      rw [if_pos (Or.inl h)]
    · rcases leaveMeeting_status now uid m with hl | hl
      · rw [hl, h]
      · exact hl
    · intro r hr
      unfold endMeeting at hr
      split at hr
      · exact absurd hr (by simp)
      · cases hr; rfl
    · intro r hr
      unfold cancelMeeting at hr
      split at hr
      · exact absurd hr (by simp)
      · split at hr
        · exact absurd hr (by simp)
        · simp_all
    · intro r hr
      unfold updateMeetingSettings at hr
      split at hr
      · exact absurd hr (by simp)
      · cases hr; exact h
  · intro h
    refine ⟨?_, ?_, ?_, ?_, ?_⟩
    · unfold joinMeeting
      rw [if_pos (Or.inr h)]
    · intro r hr
      unfold cancelMeeting at hr
      split at hr
      · exact absurd hr (by simp)
      · split at hr
        · exact absurd hr (by simp)
        · simp_all
    · intro r hr
      unfold updateMeetingSettings at hr
      split at hr
      · exact absurd hr (by simp)
      · cases hr; exact h
    · rcases leaveMeeting_status now uid m with hl | hl
      · exact Or.inl (hl.trans h)
      · exact Or.inr hl
    · intro r hr
      unfold endMeeting at hr
      split at hr
      · exact absurd hr (by simp)
      · cases hr; rfl

/-- C3 witness: the amended theorem applied to the concrete cancelled meeting. -/
theorem terminal_status_amended_witness :
    joinMeeting 5 1 none exMeetingCancelled {} =
      Except.error ApiError.meetingUnavailable ∧
    ((leaveMeeting 5 1 exMeetingCancelled).status = MeetingStatus.cancelled ∨
      (leaveMeeting 5 1 exMeetingCancelled).status = MeetingStatus.ended) := by
  have h := (terminal_status_amended 5 1 none exMeetingCancelled {} {}).2 rfl
  exact ⟨h.1, h.2.2.2.1⟩

/-! ### Claim C4 — scheduleMeeting and the `invited` status -/

/-- C4: `scheduleMeeting` pushes the host with status `invited`, a value the
schema enum `['joined','left','removed']` rejects, so `meeting.save()` raises
a ValidationError and every well-formed schedule request (future
`scheduledFor`) is answered 500 with nothing persisted and no reminders
scheduled; a non-future `scheduledFor` is answered 400. -/
theorem scheduleMeeting_invited_rejected (existingIds : List String)
    (candidate : String) (now scheduledFor : Int) (uid : Nat) :
    (now < scheduledFor →
      scheduleMeeting existingIds candidate now scheduledFor uid =
        Except.error ApiError.internal) ∧
    (scheduledFor ≤ now →
      scheduleMeeting existingIds candidate now scheduledFor uid =
        Except.error ApiError.mustBeFuture) := by
  constructor
  · intro h
    unfold scheduleMeeting
    rw [if_neg (by omega)]
    rfl
  · intro h
    unfold scheduleMeeting
    rw [if_pos h]

/-- C4 witness: the theorem applied at a concrete future (and past) request. -/
theorem scheduleMeeting_invited_rejected_witness :
    scheduleMeeting [] "ABC-123-XYZ" 0 3600000 7 = Except.error ApiError.internal ∧
    scheduleMeeting [] "ABC-123-XYZ" 3600000 100 7 = Except.error ApiError.mustBeFuture :=
  ⟨(scheduleMeeting_invited_rejected [] "ABC-123-XYZ" 0 3600000 7).1 (by decide),
   (scheduleMeeting_invited_rejected [] "ABC-123-XYZ" 3600000 100 7).2 (by decide)⟩

/-! ### Claim C5 — reminder round trip -/

/-- C5 counterexample: in fallback mode (`initialized = false`)
`scheduleReminders` arms bare `setTimeout`s and `cancelReminders` returns
immediately, so after a schedule/cancel round trip the in-process reminder
timers — including `reminder-M-60` — are still pending, contradicting the
claim for the in-memory fallback mode. -/
theorem reminder_fallback_counterexample :
    (cancelReminders "M" (scheduleReminders 0 7200000 "M" fallbackQueue)).timers ≠ [] ∧
    ((cancelReminders "M" (scheduleReminders 0 7200000 "M" fallbackQueue)).timers.map
      Prod.snd).contains (reminderJobId "M" 60) = true ∧
    cancelReminders "M" (scheduleReminders 0 7200000 "M" fallbackQueue) =
      scheduleReminders 0 7200000 "M" fallbackQueue := by
  refine ⟨by decide, by decide, by decide⟩

/-- C5 amended: in durable-queue mode a schedule/cancel round trip leaves no
pending reminder job with any of the four ladder ids; in fallback mode
`cancelReminders` is a no-op, so pending in-process timers are NOT cleared. -/
theorem reminder_roundtrip_amended (q : QueueState) (now scheduledFor : Int)
    (meetingId : String) :
    (q.initialized = true →
      ∀ minutes ∈ reminderIntervals,
        ((cancelReminders meetingId
            (scheduleReminders now scheduledFor meetingId q)).reminderJobs.contains
          (reminderJobId meetingId minutes)) = false) ∧
    (q.initialized = false → cancelReminders meetingId q = q) := by
  constructor
  · intro hq minutes hm
    unfold cancelReminders
    rw [scheduleReminders_initialized, hq]
    simp only [Bool.true_eq_false, if_false]
    refine contains_filter_cancelled ?_
    rw [List.contains_iff_exists_mem_beq]
    exact ⟨reminderJobId meetingId minutes, List.mem_map_of_mem _ hm, by simp⟩
  · intro hq
    unfold cancelReminders
    rw [hq]
    rfl

/-- C5 witness: the amended theorem applied to concrete queues. -/
theorem reminder_roundtrip_amended_witness :
    ((cancelReminders "M" (scheduleReminders 0 7200000 "M" durableQueue)).reminderJobs.contains
      (reminderJobId "M" 60)) = false ∧
    cancelReminders "M" fallbackQueue = fallbackQueue :=
  ⟨(reminder_roundtrip_amended durableQueue 0 7200000 "M").1 rfl 60 (by decide),
   (reminder_roundtrip_amended fallbackQueue 0 7200000 "M").2 rfl⟩

/-! ### Claim C9 — minutes parse failure -/

/-- C9 counterexample: when the LLM response fails JSON parsing,
`parseGeminiResponse` catches and returns the degraded structure, so
`generateMinutes` persists the record with status `completed` and no recorded
error — not status `failed` as claimed. -/
theorem minutes_parse_failure_counterexample :
    (generateMinutesAiStep exMinutesRecord (AiOutcome.response none)
      ["host@example.com"]).1.status = MinutesStatus.completed ∧
    (generateMinutesAiStep exMinutesRecord (AiOutcome.response none)
      ["host@example.com"]).1.error = none ∧
    MinutesStatus.completed ≠ MinutesStatus.failed := by
  refine ⟨rfl, rfl, by decide⟩

/-- C9 amended: on a JSON-parse failure the persisted record holds the
placeholder summary and empty content arrays, its status is `completed`, no
error is recorded, and the failure is not thrown (the email step runs);
status `failed` with a recorded error occurs exactly when the Gemini call
itself throws. -/
theorem minutes_parse_failure_amended (rec : MinutesRecord)
    (recipients : List String) (msg : String) :
    (generateMinutesAiStep rec (AiOutcome.response none) recipients).1.content =
      degradedMinutes ∧
    degradedMinutes.agenda = [] ∧ degradedMinutes.discussionPoints = [] ∧
    degradedMinutes.decisions = [] ∧ degradedMinutes.actionItems = [] ∧
    degradedMinutes.highlights = [] ∧ degradedMinutes.questionsRaised = [] ∧
    degradedMinutes.followUps = [] ∧
    degradedMinutes.summary =
      "Meeting minutes could not be fully processed. Please review the recording." ∧
    (generateMinutesAiStep rec (AiOutcome.response none) recipients).1.status =
      MinutesStatus.completed ∧
    (generateMinutesAiStep rec (AiOutcome.response none) recipients).1.error =
      rec.error ∧
    (generateMinutesAiStep rec (AiOutcome.response none) recipients).2 = true ∧
    (generateMinutesAiStep rec (AiOutcome.apiFailure msg) recipients).1.status =
      MinutesStatus.failed ∧
    (generateMinutesAiStep rec (AiOutcome.apiFailure msg) recipients).1.error =
      some msg := by
  by_cases hr : recipients.isEmpty <;>
    simp [generateMinutesAiStep, parseGeminiResponse, degradedMinutes, hr]

/-! ### Claim C6 — targeted signaling unicast -/

/-- C6 counterexample: the handlers select the first socket satisfying
`userId === to || id === to` in registry order, with no preference pass; here
the event is emitted to the socket whose id is "alice" even though a socket
with userId "alice" exists, contradicting the claimed userId-preferred
lookup. -/
theorem routeSignal_preference_counterexample :
    (routeSignal cexSockets [] cexSender (some "alice")).map Emission.target =
      ["alice"] ∧
    (specTargetSocket cexSockets "alice").map Sock.id = some "s2" ∧
    ("alice" : String) ≠ "s2" := by
  refine ⟨by decide, by decide, by decide⟩

/-- C6 amended: with a `to` field the router emits at most one event, stamped
`from = sender.userId` (or the sender's socket id), and only to a socket of
the registry satisfying `userId = to ∨ socketId = to` — the FIRST such socket
in registry order, not a userId-preferred one; with no match the event is
silently dropped; without `to` the event goes to exactly the room members
other than the sender. -/
theorem routeSignal_amended (allSockets : List Sock) (roomMembers : List String)
    (sender : Sock) (t : String) :
    (∀ e ∈ routeSignal allSockets roomMembers sender (some t),
      e.fromUser = sender.userId.getD sender.id ∧
      ∃ s ∈ allSockets, sockMatches t s = true ∧ e.target = s.id) ∧
    (routeSignal allSockets roomMembers sender (some t)).length ≤ 1 ∧
    ((∀ s ∈ allSockets, sockMatches t s = false) →
      routeSignal allSockets roomMembers sender (some t) = []) ∧
    (∀ e ∈ routeSignal allSockets roomMembers sender none,
      e.fromUser = sender.userId.getD sender.id ∧
      e.target ∈ roomMembers ∧ e.target ≠ sender.id) ∧
    (∀ sid ∈ roomMembers, sid ≠ sender.id →
      Emission.mk sid (sender.userId.getD sender.id) ∈
        routeSignal allSockets roomMembers sender none) := by
  refine ⟨?_, ?_, ?_, ?_, ?_⟩
  · intro e he
    simp only [routeSignal] at he
    cases hf : allSockets.find? (sockMatches t) with
    | none => rw [hf] at he; simp at he
    | some s =>
      rw [hf] at he
      simp only [List.mem_singleton] at he
      subst he
      exact ⟨rfl, s, List.mem_of_find?_eq_some hf, List.find?_some hf, rfl⟩
  · simp only [routeSignal]
    cases allSockets.find? (sockMatches t) <;> simp
  · intro hall
    simp only [routeSignal]
    have hnone : allSockets.find? (sockMatches t) = none :=
      List.find?_eq_none.mpr (by intro x hx; rw [hall x hx]; simp)
    rw [hnone]
  · intro e he
    simp only [routeSignal, List.mem_map] at he
    obtain ⟨sid, hsid, rfl⟩ := he
    rw [List.mem_filter] at hsid
    obtain ⟨hmem, hne⟩ := hsid
    refine ⟨rfl, hmem, ?_⟩
    simpa using hne
  · intro sid hmem hne
    simp only [routeSignal, List.mem_map]
    exact ⟨sid, List.mem_filter.mpr ⟨hmem, by simpa using hne⟩, rfl⟩

/-- C6 witness: the amended theorem applied to the concrete registry. -/
theorem routeSignal_amended_witness :
    (routeSignal cexSockets ["s0", "x"] cexSender (some "alice")).length ≤ 1 ∧
    routeSignal cexSockets ["s0", "x"] cexSender (some "nobody") = [] ∧
    Emission.mk "x" "bob2" ∈ routeSignal cexSockets ["s0", "x"] cexSender none := by
  have h := routeSignal_amended cexSockets ["s0", "x"] cexSender "alice"
  have h2 := routeSignal_amended cexSockets ["s0", "x"] cexSender "nobody"
  exact ⟨h.2.1, h2.2.2.1 (by decide), h.2.2.2.2 "x" (by decide) (by decide)⟩

/-! ### Claim C8 — peakParticipants -/

/-- C8 counterexample: starting from a meeting that satisfies the invariant
(no participants, peak 0), a single successful `joinMeeting` leaves the joined
count strictly above `statistics.peakParticipants`, because `joinMeeting`
pushes directly onto `participants` and never updates the peak. -/
theorem peakParticipants_counterexample :
    decide (joinedCount exMeetingEmpty.participants ≤
      exMeetingEmpty.statistics.peakParticipants) = true ∧
    (joinMeeting 5 2 none exMeetingEmpty {}).toOption.map
      (fun r => decide (r.1.statistics.peakParticipants < joinedCount r.1.participants)) =
      some true := by
  exact ⟨rfl, rfl⟩

/-- C8 amended: `peakParticipants` is monotonically non-decreasing under every
modelled operation (none of the controller paths ever lowers it — `joinMeeting`,
`endMeeting`, `cancelMeeting` and `updateMeetingSettings` leave it unchanged),
and `addParticipant` (the schema method) re-establishes
`peak ≥ current joined count` whenever it appends; but the controller's
`joinMeeting` does not maintain `peak ≥ joined count`, so the claimed
history bound fails. -/
theorem peakParticipants_amended (now : Int) (uid : Nat) (pwd : Option String)
    (m : Meeting) (stats : UserStats) (patch : SettingsPatch) (role : PRole) :
    (∀ m1 st1, joinMeeting now uid pwd m stats = Except.ok (m1, st1) →
      m1.statistics.peakParticipants = m.statistics.peakParticipants) ∧
    m.statistics.peakParticipants ≤ (leaveMeeting now uid m).statistics.peakParticipants ∧
    (∀ m1, endMeeting now uid m = Except.ok m1 →
      m1.statistics.peakParticipants = m.statistics.peakParticipants) ∧
    (∀ m1, cancelMeeting uid m = Except.ok m1 →
      m1.statistics.peakParticipants = m.statistics.peakParticipants) ∧
    (∀ m1, updateMeetingSettings uid patch m = Except.ok m1 →
      m1.statistics.peakParticipants = m.statistics.peakParticipants) ∧
    m.statistics.peakParticipants ≤
      (addParticipant now uid role m).statistics.peakParticipants ∧
    (m.participants.find? (fun p => decide (p.user = uid ∧ p.status = PStatus.joined)) = none →
      joinedCount (addParticipant now uid role m).participants ≤
        (addParticipant now uid role m).statistics.peakParticipants) := by
  refine ⟨?_, ?_, ?_, ?_, ?_, ?_, ?_⟩
  · intro m1 st1 h
    unfold joinMeeting at h
    split at h
    · exact absurd h (by simp)
    · split at h
      · exact absurd h (by simp)
      · split at h
        · exact absurd h (by simp)
        · split at h
          · dsimp only at h
            split at h <;> (cases h; rfl)
          · dsimp only at h
            split at h <;> (split at h <;> (cases h; rfl))
  · unfold leaveMeeting
    split
    · exact Nat.le_refl _
    · dsimp only
      split
      · split
        · exact Nat.le_refl _
        · split
          · exact Nat.le_refl _
          · exact Nat.le_refl _
      · exact Nat.le_refl _
  · intro m1 h
    unfold endMeeting at h
    split at h
    · exact absurd h (by simp)
    · cases h; rfl
  · intro m1 h
    unfold cancelMeeting at h
    split at h
    · exact absurd h (by simp)
    · split at h
      · exact absurd h (by simp)
      · cases h; rfl
  · intro m1 h
    unfold updateMeetingSettings at h
    split at h
    · exact absurd h (by simp)
    · cases h; rfl
  · unfold addParticipant
    split
    · exact Nat.le_refl _
    · exact Nat.le_max_left _ _
  · intro h
    unfold addParticipant
    rw [h]
    exact Nat.le_max_right _ _

/-- C8 witness: the amended theorem applied to the concrete ongoing meeting. -/
theorem peakParticipants_amended_witness :
    exMeetingOngoing.statistics.peakParticipants ≤
      (leaveMeeting 9 3 exMeetingOngoing).statistics.peakParticipants ∧
    joinedCount (addParticipant 9 5 PRole.participant exMeetingOngoing).participants ≤
      (addParticipant 9 5 PRole.participant exMeetingOngoing).statistics.peakParticipants := by
  exact ⟨(peakParticipants_amended 9 3 none exMeetingOngoing {} {} PRole.participant).2.1,
    (peakParticipants_amended 9 5 none exMeetingOngoing {} {} PRole.participant).2.2.2.2.2.2
      (by decide)⟩

/-! ### Claim C7 — meeting-code generation -/

/-- Every drawn character lies in the classes `[A-Z0-9]`. -/
theorem genChar_meetingChar : ∀ d : Fin 36, isMeetingChar (genChar d) = true := by decide

/-- C7 counterexample: `createMeeting` calls `generateMeetingId` once and
never retries; when the single candidate collides with a stored `meetingId`
the unique index rejects the save and creation fails with a 500, contradicting
the claimed rejection sampling under which creation succeeds on collision. -/
theorem createMeeting_collision_counterexample :
    createMeeting ["QQQ-QQQ-QQQ"] "QQQ-QQQ-QQQ" 0 1 = Except.error ApiError.internal := by
  rfl

/-- C7 amended: every generated code has the wire format
`^[A-Z0-9]{3}-[A-Z0-9]{3}-[A-Z0-9]{3}$`; creation draws a single candidate
with no collision retry — a colliding candidate makes creation fail with
Internal (the unique index rejects the save), and a non-colliding candidate
is stored and is unique among the stored ids. -/
theorem meetingId_format_and_collision_amended :
    (∀ draws : List (Fin 36), draws.length = 9 →
      meetingIdFormat (generateMeetingId draws) = true) ∧
    (∀ (existingIds : List String) (candidate : String) (now : Int) (uid : Nat),
      (existingIds.contains candidate = true →
        createMeeting existingIds candidate now uid = Except.error ApiError.internal) ∧
      (existingIds.contains candidate = false →
        ∃ mtg, createMeeting existingIds candidate now uid = Except.ok mtg ∧
          mtg.meetingId = candidate ∧ existingIds.contains mtg.meetingId = false)) := by
  constructor
  · intro draws h
    match draws with
    | [d0, d1, d2, d3, d4, d5, d6, d7, d8] =>
      simp [generateMeetingId, genLoop, meetingIdFormat, genChar_meetingChar]
  · intro ids cand now uid
    constructor
    · intro h
      unfold createMeeting
      rw [if_neg (by simp [saveValidates, participantStatusInSchemaEnum]), if_pos h]
    · intro h
      unfold createMeeting
      rw [if_neg (by simp [saveValidates, participantStatusInSchemaEnum]),
        if_neg (by rw [h]; simp)]
      exact ⟨_, rfl, rfl, h⟩

/-- C7 witness: the amended theorem applied to a concrete draw list and to a
concrete collision. -/
theorem meetingId_format_and_collision_amended_witness :
    meetingIdFormat (generateMeetingId [0, 1, 2, 3, 4, 5, 6, 7, 8]) = true ∧
    createMeeting ["ABC-123-XYZ"] "ABC-123-XYZ" 0 1 = Except.error ApiError.internal := by
  exact ⟨meetingId_format_and_collision_amended.1 [0, 1, 2, 3, 4, 5, 6, 7, 8] (by decide),
    (meetingId_format_and_collision_amended.2 ["ABC-123-XYZ"] "ABC-123-XYZ" 0 1).1 (by decide)⟩

end AIMeet
